import Mathlib

/-!
# Verification of the Aurora PostgreSQL performance tester core

Shallow embedding of `src/aurora_perf.py` (class `AuroraPerformanceTester`):
the result buffer (`deque(maxlen=1000)`), the aggregate counters, an attempt
(`perform_operation`), the worker loop (`worker`), the periodic metrics
reporter (`metrics_reporter`) and the final report (`print_final_results`).

Wall-clock times and latencies (Python floats) are modelled as rationals; the
external store and the scheduler are modelled as explicit inputs: a
`StoreBehavior` describing how the store reacts to one attempt, and an
`Iteration` record carrying the values a worker-loop iteration observes.
-/

/-- Embeds the dataclass `TestResult` (aurora_perf.py:41-47):
`success: bool`, `duration: float`, `timestamp: float`, `worker_id: int`. -/
structure TestResult where
  success : Bool
  duration : ℚ
  timestamp : ℚ
  worker_id : ℕ
deriving DecidableEq

/-- Capacity of the shared result buffer: `deque(maxlen=1000)`
(aurora_perf.py:56). -/
def resultsMaxlen : ℕ := 1000

/-- Keep the most recent `C` elements of a list (the suffix of length
`min length C`).  This is what a `deque(maxlen=C)` retains, and also what the
slice `list(self.results)[-C:]` extracts. -/
def keepLast (C : ℕ) (l : List α) : List α := l.drop (l.length - C)

/-- One `self.results.append(result)` on a `deque(maxlen=C)`
(aurora_perf.py:242): append on the right, evicting from the left when the
capacity is exceeded. -/
def bufAppend (C : ℕ) (buf : List α) (x : α) : List α := keepLast C (buf ++ [x])

/-- A whole sequence of appends to the bounded buffer. -/
def appendAll (C : ℕ) (buf : List α) (xs : List α) : List α :=
  xs.foldl (bufAppend C) buf

/-- Embeds the three aggregate counters of `AuroraPerformanceTester.__init__`
(aurora_perf.py:57-59). -/
structure Counters where
  total_operations : ℕ
  successful_operations : ℕ
  failed_operations : ℕ
deriving DecidableEq

/-- Embeds the counter updates of one worker iteration (aurora_perf.py:243-247):
`self.total_operations += 1`; then `successful_operations += 1` if the result
succeeded, else `failed_operations += 1`. -/
def recordResult (c : Counters) (r : TestResult) : Counters :=
  { total_operations := c.total_operations + 1
    successful_operations :=
      if r.success then c.successful_operations + 1 else c.successful_operations
    failed_operations :=
      if r.success then c.failed_operations else c.failed_operations + 1 }

/-- Counter state after recording a whole sequence of attempt results. -/
def applyResults (c : Counters) (rs : List TestResult) : Counters :=
  rs.foldl recordResult c

/-- The row read back by `perform_operation` (aurora_perf.py:212-215):
`SELECT vin, entries_compressed, brand ... WHERE vin = $1`.  The payload is
opaque load data (a byte blob). -/
structure VehicleRow where
  vin : String
  entries_compressed : List ℕ
  brand : String
deriving DecidableEq

/-- How the external store reacts to one read-modify-write attempt.  Each
constructor is one of the ways the body of `perform_operation`
(aurora_perf.py:200-232) can go: acquiring a connection raises, the random-VIN
select raises, the select returns no VIN, the row read raises, the row has
vanished between the select and the read, the update raises, or every step
succeeds. -/
inductive StoreBehavior where
  | acquireRaises
  | selectRaises
  | noKey
  | readRaises (vin : String)
  | vanished (vin : String)
  | writeRaises (row : VehicleRow)
  | ok (row : VehicleRow)
deriving DecidableEq

/-- Embeds the `try` body of `perform_operation` (aurora_perf.py:204-229):
a raised exception is an `Except.error`; the no-VIN and vanished-row cases are
ordinary returns carrying `success=False`; the full path returns
`success=True`.  `startTime` is the `time.time()` taken on entry
(aurora_perf.py:202) and `endTime` the clock when the function returns, so
every returned result carries `endTime - startTime` as its duration and
`startTime` as its timestamp. -/
def attemptBody (wid : ℕ) (startTime endTime : ℚ) :
    StoreBehavior → Except String TestResult
  | .acquireRaises => .error "connection error"
  | .selectRaises => .error "select error"
  | .noKey => .ok ⟨false, endTime - startTime, startTime, wid⟩
  | .readRaises _ => .error "read error"
  | .vanished _ => .ok ⟨false, endTime - startTime, startTime, wid⟩
  | .writeRaises _ => .error "update error"
  | .ok _ => .ok ⟨true, endTime - startTime, startTime, wid⟩

/-- Embeds `perform_operation` (aurora_perf.py:200-232): the `try`/`except`
wrapper around `attemptBody` — any exception is swallowed and converted to a
`success=False` result (aurora_perf.py:231-232), never re-raised. -/
def perform_operation (wid : ℕ) (startTime endTime : ℚ)
    (b : StoreBehavior) : TestResult :=
  match attemptBody wid startTime endTime b with
  | .ok r => r
  | .error _ => ⟨false, endTime - startTime, startTime, wid⟩

/-- What one worker-loop iteration observes of its environment: the shared
running flag and the clock at the `while` check (aurora_perf.py:238), the
store's behaviour during the attempt, and the clock when the attempt
returns. -/
structure Iteration where
  running : Bool
  now : ℚ
  behavior : StoreBehavior
  endTime : ℚ
deriving DecidableEq

/-- The worker's `while` condition (aurora_perf.py:238):
`self.running and time.time() < self.start_time + self.config.duration`. -/
def keepGoing (startTime duration : ℚ) (it : Iteration) : Bool :=
  it.running && decide (it.now < startTime + duration)

/-- The state a worker mutates: the shared result buffer, the shared counters,
and its local `operations` count (aurora_perf.py:236). -/
structure WorkerState where
  results : List TestResult
  counters : Counters
  operations : ℕ
deriving DecidableEq

/-- Embeds the `worker` loop (aurora_perf.py:234-251) over an explicit list of
iteration observations: check the running flag and the deadline; if the check
fails, exit at once; otherwise perform one attempt, append its result to the
buffer, bump the counters, count the operation and continue. -/
def workerLoop (wid : ℕ) (startTime duration : ℚ) (C : ℕ) :
    WorkerState → List Iteration → WorkerState
  | st, [] => st
  | st, it :: rest =>
      if keepGoing startTime duration it then
        workerLoop wid startTime duration C
          { results := bufAppend C st.results
              (perform_operation wid it.now it.endTime it.behavior)
            counters := recordResult st.counters
              (perform_operation wid it.now it.endTime it.behavior)
            operations := st.operations + 1 } rest
      else st

/-- The results the worker records on a given schedule: one per iteration up
to (not including) the first failed `while` check. -/
def attemptResults (wid : ℕ) (startTime duration : ℚ)
    (sched : List Iteration) : List TestResult :=
  (sched.takeWhile (keepGoing startTime duration)).map
    (fun it => perform_operation wid it.now it.endTime it.behavior)

/-- The two observations of `self.running` one reporter iteration makes: at
the `while` check (aurora_perf.py:255) and after the 10-second sleep
(aurora_perf.py:257). -/
structure Tick where
  preRunning : Bool
  postRunning : Bool
deriving DecidableEq

/-- Embeds the `metrics_reporter` loop (aurora_perf.py:253-275), returning the
ticks that emit a metrics line: exit when the `while` check fails; after
sleeping, `break` without emitting when the flag has gone false
(aurora_perf.py:257-258); otherwise emit and continue. -/
def reporterLoop : List Tick → List Tick
  | [] => []
  | t :: rest =>
      if t.preRunning then
        if t.postRunning then t :: reporterLoop rest else []
      else []

/-- An externally visible output event of the run. -/
inductive RunEvent where
  | metrics (t : Tick)
  | finalReport
deriving DecidableEq

/-- Embeds the output order of `run_test` (aurora_perf.py:298-309): the
orchestrator clears the running flag, gathers every task — so the reporter's
loop has finished and produced its emissions — and only then prints the final
report. -/
def run_test_trace (ticks : List Tick) : List RunEvent :=
  (reporterLoop ticks).map RunEvent.metrics ++ [RunEvent.finalReport]

/-- Embeds `statistics.mean` on a nonempty list: sum divided by length. -/
def pyMean (l : List ℚ) : ℚ := l.sum / l.length

/-- Insert a value into an ascending-sorted list keeping it sorted. -/
def insertSorted (x : ℚ) : List ℚ → List ℚ
  | [] => [x]
  | y :: ys => if x ≤ y then x :: y :: ys else y :: insertSorted x ys

/-- Ascending sort, as `statistics.quantiles` applies to its input. -/
def pySorted (l : List ℚ) : List ℚ := l.foldr insertSorted []

/-- Embeds `statistics.quantiles(data, n=n)` with the default `exclusive`
method (CPython): sort the data, let `ld = len(data)` and `m = ld + 1`, and
for each `i` in `1..n-1` produce the cut point
`(data[j-1]*(n-delta) + data[j]*delta) / n` where `j = i*m//n` clamped to
`1..ld-1` and `delta = i*m - j*n`. -/
def pyQuantiles (data : List ℚ) (n : ℕ) : List ℚ :=
  let d := pySorted data
  let ld := d.length
  let m := ld + 1
  (List.range (n - 1)).map (fun k =>
    let i := k + 1
    let j0 := i * m / n
    let j := if j0 < 1 then 1 else if j0 > ld - 1 then ld - 1 else j0
    let delta : ℤ := (i * m : ℤ) - (j * n : ℤ)
    ((d.getD (j - 1) 0) * ((n : ℚ) - (delta : ℚ)) +
      (d.getD j 0) * (delta : ℚ)) / (n : ℚ))

/-- The rolling-window latencies of the periodic reporter
(aurora_perf.py:266): the most recent 100 buffer entries, each duration
converted to milliseconds. -/
def recentLatencies (results : List TestResult) : List ℚ :=
  (keepLast 100 results).map (fun r => r.duration * 1000)

/-- The reporter's average latency (aurora_perf.py:265-270): mean of the
recent latencies, or 0 when the buffer is empty. -/
def reporterAvgLatency (results : List TestResult) : ℚ :=
  if results.isEmpty then 0 else pyMean (recentLatencies results)

/-- The reporter's 95th-percentile latency (aurora_perf.py:268-270):
`statistics.quantiles(recent_latencies, n=20)[18]` when there are at least two
recent latencies, the average when there is exactly one, 0 when the buffer is
empty. -/
def reporterP95Latency (results : List TestResult) : ℚ :=
  if results.isEmpty then 0
  else if 1 < (recentLatencies results).length then
    (pyQuantiles (recentLatencies results) 20).getD 18 0
  else reporterAvgLatency results

/-- The latency dataset of the final report (aurora_perf.py:319): every buffer
entry's duration in milliseconds — the whole buffer, not a window. -/
def finalLatencies (results : List TestResult) : List ℚ :=
  results.map (fun r => r.duration * 1000)

/-- Python `min` over a nonempty list (0 as an unused empty default). -/
def listMin : List ℚ → ℚ
  | [] => 0
  | x :: xs => xs.foldl min x

/-- Python `max` over a nonempty list (0 as an unused empty default). -/
def listMax : List ℚ → ℚ
  | [] => 0
  | x :: xs => xs.foldl max x

/-- Final-report average latency (aurora_perf.py:318-326). -/
def finalAvgLatency (results : List TestResult) : ℚ :=
  if results.isEmpty then 0 else pyMean (finalLatencies results)

/-- Final-report minimum latency (aurora_perf.py:321). -/
def finalMinLatency (results : List TestResult) : ℚ :=
  if results.isEmpty then 0 else listMin (finalLatencies results)

/-- Final-report maximum latency (aurora_perf.py:322). -/
def finalMaxLatency (results : List TestResult) : ℚ :=
  if results.isEmpty then 0 else listMax (finalLatencies results)

/-- Final-report 95th percentile (aurora_perf.py:323):
`statistics.quantiles(latencies, n=20)[18]` over the whole buffer when it has
at least two entries, else the average. -/
def finalP95Latency (results : List TestResult) : ℚ :=
  if results.isEmpty then 0
  else if 1 < (finalLatencies results).length then
    (pyQuantiles (finalLatencies results) 20).getD 18 0
  else finalAvgLatency results

/-- Final-report 99th percentile (aurora_perf.py:324):
`statistics.quantiles(latencies, n=100)[98]` over the whole buffer when it has
at least two entries, else the average. -/
def finalP99Latency (results : List TestResult) : ℚ :=
  if results.isEmpty then 0
  else if 1 < (finalLatencies results).length then
    (pyQuantiles (finalLatencies results) 100).getD 98 0
  else finalAvgLatency results

/-- Reporter throughput (aurora_perf.py:261):
`total_operations / elapsed if elapsed > 0 else 0`. -/
def reporterThroughput (totalOps : ℕ) (elapsed : ℚ) : ℚ :=
  if 0 < elapsed then (totalOps : ℚ) / elapsed else 0

/-- Reporter success rate in percent (aurora_perf.py:262):
`successful / total * 100 if total > 0 else 0`. -/
def reporterSuccessRate (succOps totalOps : ℕ) : ℚ :=
  if 0 < totalOps then (succOps : ℚ) / (totalOps : ℚ) * 100 else 0

/-- Final-report throughput (aurora_perf.py:314), same guarded formula. -/
def finalThroughput (totalOps : ℕ) (elapsed : ℚ) : ℚ :=
  if 0 < elapsed then (totalOps : ℚ) / elapsed else 0

/-- Final-report success rate (aurora_perf.py:315), same guarded formula. -/
def finalSuccessRate (succOps totalOps : ℕ) : ℚ :=
  if 0 < totalOps then (succOps : ℚ) / (totalOps : ℚ) * 100 else 0

/-- A successful result with a given duration (timestamp and id 0), used for
concrete latency examples. -/
def mkSample (d : ℚ) : TestResult := ⟨true, d, 0, 0⟩

/-- Five results whose latencies in milliseconds are 10, 20, 30, 40, 50 — the
spec's worked percentile example. -/
def sampleResults : List TestResult :=
  [mkSample (1 / 100), mkSample (2 / 100), mkSample (3 / 100),
   mkSample (4 / 100), mkSample (5 / 100)]

/-! ## Helper lemmas -/

theorem keepLast_length (C : ℕ) (l : List α) :
    (keepLast C l).length = min l.length C := by
  simp [keepLast]
  omega

theorem keepLast_of_le (C : ℕ) (l : List α) (h : l.length ≤ C) :
    keepLast C l = l := by
  simp [keepLast, Nat.sub_eq_zero_of_le h]

theorem keepLast_subset (C : ℕ) (l : List α) : keepLast C l ⊆ l :=
  List.drop_subset _ l

theorem keepLast_append (C : ℕ) (l l' : List α) :
    keepLast C (keepLast C l ++ l') = keepLast C (l ++ l') := by
  simp only [keepLast, List.drop_append_eq_append_drop, List.length_append,
    List.length_drop, List.drop_drop]
  congr 1 <;> congr 1 <;> omega

theorem appendAll_eq_keepLast (C : ℕ) (xs : List α) :
    ∀ buf : List α, buf.length ≤ C →
      appendAll C buf xs = keepLast C (buf ++ xs) := by
  induction xs with
  | nil => intro buf h; simpa [appendAll] using (keepLast_of_le C buf h).symm
  | cons x xs ih =>
      intro buf h
      have hlen : (bufAppend C buf x).length ≤ C := by
        simp [bufAppend, keepLast_length]
      calc appendAll C buf (x :: xs)
          = appendAll C (bufAppend C buf x) xs := by simp [appendAll]
        _ = keepLast C (bufAppend C buf x ++ xs) := ih _ hlen
        _ = keepLast C ((buf ++ [x]) ++ xs) := by
              simpa [bufAppend] using keepLast_append C (buf ++ [x]) xs
        _ = keepLast C (buf ++ x :: xs) := by simp

theorem appendAll_nil_start (C : ℕ) (xs : List α) :
    appendAll C [] xs = keepLast C xs := by
  simpa using appendAll_eq_keepLast C xs [] (by simp)

theorem applyResults_total (rs : List TestResult) :
    ∀ c : Counters,
      (applyResults c rs).total_operations = c.total_operations + rs.length := by
  induction rs with
  | nil => intro c; simp [applyResults]
  | cons r rs ih =>
      intro c
      have h := ih (recordResult c r)
      simp only [applyResults, List.foldl_cons] at h ⊢
      rw [h]
      simp [recordResult]
      omega

theorem applyResults_succ_add_failed (rs : List TestResult) :
    ∀ c : Counters,
      (applyResults c rs).successful_operations +
        (applyResults c rs).failed_operations =
      c.successful_operations + c.failed_operations + rs.length := by
  induction rs with
  | nil => intro c; simp [applyResults]
  | cons r rs ih =>
      intro c
      have h := ih (recordResult c r)
      simp only [applyResults, List.foldl_cons] at h ⊢
      rw [h]
      by_cases hs : r.success <;> simp [recordResult, hs] <;> omega

theorem recordResult_le (c : Counters) (r : TestResult) :
    c.total_operations ≤ (recordResult c r).total_operations ∧
    c.successful_operations ≤ (recordResult c r).successful_operations ∧
    c.failed_operations ≤ (recordResult c r).failed_operations := by
  by_cases hs : r.success <;> simp [recordResult, hs]

theorem applyResults_succ_of_failed (rs : List TestResult)
    (hf : ∀ r ∈ rs, r.success = false) :
    ∀ c : Counters,
      (applyResults c rs).successful_operations = c.successful_operations := by
  induction rs with
  | nil => intro c; simp [applyResults]
  | cons r rs ih =>
      intro c
      have hr : r.success = false := hf r (by simp)
      have h := ih (fun x hx => hf x (by simp [hx])) (recordResult c r)
      simp only [applyResults, List.foldl_cons] at h ⊢
      rw [h]
      simp [recordResult, hr]

/-! ## Worker-loop lemmas -/

theorem workerLoop_nil (wid : ℕ) (s d : ℚ) (C : ℕ) (st : WorkerState) :
    workerLoop wid s d C st [] = st := rfl

theorem workerLoop_cons_true (wid : ℕ) (s d : ℚ) (C : ℕ) (st : WorkerState)
    (it : Iteration) (rest : List Iteration)
    (h : keepGoing s d it = true) :
    workerLoop wid s d C st (it :: rest) =
      workerLoop wid s d C
        { results := bufAppend C st.results
            (perform_operation wid it.now it.endTime it.behavior)
          counters := recordResult st.counters
            (perform_operation wid it.now it.endTime it.behavior)
          operations := st.operations + 1 } rest := by
  simp [workerLoop, h]

theorem workerLoop_cons_false (wid : ℕ) (s d : ℚ) (C : ℕ) (st : WorkerState)
    (it : Iteration) (rest : List Iteration)
    (h : keepGoing s d it = false) :
    workerLoop wid s d C st (it :: rest) = st := by
  simp [workerLoop, h]

theorem workerLoop_spec (wid : ℕ) (s d : ℚ) (C : ℕ) (sched : List Iteration) :
    ∀ st : WorkerState,
      workerLoop wid s d C st sched =
        { results := appendAll C st.results (attemptResults wid s d sched)
          counters := applyResults st.counters (attemptResults wid s d sched)
          operations := st.operations + (attemptResults wid s d sched).length } := by
  induction sched with
  | nil => intro st; simp [workerLoop_nil, attemptResults, appendAll, applyResults]
  | cons it rest ih =>
      intro st
      by_cases h : keepGoing s d it
      · rw [workerLoop_cons_true wid s d C st it rest h, ih]
        simp [attemptResults, List.takeWhile_cons, h, appendAll, applyResults]
        omega
      · rw [workerLoop_cons_false wid s d C st it rest
          (Bool.not_eq_true _ ▸ (by simpa using h))]
        simp [attemptResults, List.takeWhile_cons, h, appendAll, applyResults]

/-! ## Claim theorems -/

/-- C2: For every sequence of N appends to a ResultBuffer of capacity C
(default C=1000), the buffer's length after all appends equals min(N, C), the
buffer is exactly the suffix of the C most-recently appended entries in
insertion order, and no intermediate state (after any prefix of the appends)
ever exceeds length C. -/
theorem resultBuffer_bounded_ring (C : ℕ) (xs : List TestResult) :
    (appendAll C [] xs).length = min xs.length C ∧
    appendAll C [] xs = xs.drop (xs.length - C) ∧
    (∀ n : ℕ, (appendAll C [] (xs.take n)).length ≤ C) ∧
    resultsMaxlen = 1000 := by
  refine ⟨?_, ?_, ?_, rfl⟩
  · rw [appendAll_nil_start]; exact keepLast_length C xs
  · rw [appendAll_nil_start]; rfl
  · intro n
    rw [appendAll_nil_start, keepLast_length]
    omega

/-- C3: after any number of recorded attempts, total = success + failed; each
attempt adds exactly 1 to the total and exactly 1 to exactly one of
success/failed; and all three counters are non-decreasing step by step over
the run. -/
theorem counters_invariant (rs : List TestResult) :
    ((applyResults ⟨0, 0, 0⟩ rs).total_operations =
        (applyResults ⟨0, 0, 0⟩ rs).successful_operations +
          (applyResults ⟨0, 0, 0⟩ rs).failed_operations) ∧
    (∀ (c : Counters) (r : TestResult),
        (recordResult c r).total_operations = c.total_operations + 1 ∧
        ((recordResult c r).successful_operations = c.successful_operations + 1 ∧
            (recordResult c r).failed_operations = c.failed_operations ∨
         (recordResult c r).successful_operations = c.successful_operations ∧
            (recordResult c r).failed_operations = c.failed_operations + 1)) ∧
    (∀ n : ℕ,
        (applyResults ⟨0, 0, 0⟩ (rs.take n)).total_operations ≤
          (applyResults ⟨0, 0, 0⟩ (rs.take (n + 1))).total_operations ∧
        (applyResults ⟨0, 0, 0⟩ (rs.take n)).successful_operations ≤
          (applyResults ⟨0, 0, 0⟩ (rs.take (n + 1))).successful_operations ∧
        (applyResults ⟨0, 0, 0⟩ (rs.take n)).failed_operations ≤
          (applyResults ⟨0, 0, 0⟩ (rs.take (n + 1))).failed_operations) := by
  refine ⟨?_, ?_, ?_⟩
  · have h1 := applyResults_total rs ⟨0, 0, 0⟩
    have h2 := applyResults_succ_add_failed rs ⟨0, 0, 0⟩
    dsimp only at h1 h2
    omega
  · intro c r
    by_cases hs : r.success <;> simp [recordResult, hs]
  · intro n
    rw [List.take_succ]
    cases h : rs[n]? with
    | none => simp [h]
    | some r =>
        simp only [h, Option.toList_some, applyResults, List.foldl_append,
          List.foldl_cons, List.foldl_nil]
        exact recordResult_le _ r

/-- C4: an attempt never propagates a failure past the worker's boundary:
whenever the attempt body raises, `perform_operation` returns a
`success=False` result instead; the returned result succeeds exactly when
every store step succeeded; and after any attempt — failed or not — the worker
loop keeps running (it recurses on the rest of its schedule rather than
terminating). -/
theorem attempt_failures_contained (wid : ℕ) (s e : ℚ) (b : StoreBehavior) :
    (∀ msg : String, attemptBody wid s e b = Except.error msg →
        perform_operation wid s e b = ⟨false, e - s, s, wid⟩) ∧
    ((perform_operation wid s e b).success = true ↔
        ∃ row, b = StoreBehavior.ok row) ∧
    (∀ (d : ℚ) (C : ℕ) (st : WorkerState) (it : Iteration)
        (rest : List Iteration), keepGoing s d it = true →
        workerLoop wid s d C st (it :: rest) =
          workerLoop wid s d C
            { results := bufAppend C st.results
                (perform_operation wid it.now it.endTime it.behavior)
              counters := recordResult st.counters
                (perform_operation wid it.now it.endTime it.behavior)
              operations := st.operations + 1 } rest) := by
  refine ⟨?_, ?_, ?_⟩
  · intro msg hmsg
    simp [perform_operation, hmsg]
  · cases b <;> simp [perform_operation, attemptBody]
  · intro d C st it rest h
    exact workerLoop_cons_true wid s d C st it rest h

/-- Witness for C4 at a concrete raising behaviour. -/
theorem attempt_failures_contained_witness :
    perform_operation 3 1 2 StoreBehavior.selectRaises = ⟨false, 2 - 1, 1, 3⟩ :=
  (attempt_failures_contained 3 1 2 StoreBehavior.selectRaises).1
    "select error" rfl

/-- C7: the worker re-checks the running flag and the deadline before every
attempt: its run equals the run over the longest prefix of iterations
satisfying the check, each attempt it performs belongs to an iteration where
`running` was true and the clock was before start+duration, its operation
count is exactly the number of passing iterations, and at the first failing
check it returns at once (performing no further attempts). -/
theorem worker_checks_stop_condition (wid : ℕ) (s d : ℚ) (C : ℕ)
    (st : WorkerState) (sched : List Iteration) :
    (workerLoop wid s d C st sched =
        workerLoop wid s d C st (sched.takeWhile (keepGoing s d))) ∧
    ((workerLoop wid s d C st sched).operations =
        st.operations + (sched.takeWhile (keepGoing s d)).length) ∧
    (∀ it ∈ sched.takeWhile (keepGoing s d),
        it.running = true ∧ it.now < s + d) ∧
    (∀ (it : Iteration) (rest : List Iteration), keepGoing s d it = false →
        workerLoop wid s d C st (it :: rest) = st) := by
  refine ⟨?_, ?_, ?_, ?_⟩
  · rw [workerLoop_spec, workerLoop_spec]
    have h : attemptResults wid s d (sched.takeWhile (keepGoing s d)) =
        attemptResults wid s d sched := by
      simp [attemptResults, List.takeWhile_idem]
    rw [h]
  · rw [workerLoop_spec]
    simp [attemptResults]
  · intro it hit
    have h := List.mem_takeWhile_imp hit
    simp only [keepGoing, Bool.and_eq_true, decide_eq_true_eq] at h
    exact h
  · intro it rest h
    exact workerLoop_cons_false wid s d C st it rest h

/-- Witness for C7: one passing then one failing iteration. -/
theorem worker_checks_stop_condition_witness :
    (Iteration.mk true 0 StoreBehavior.noKey 1).running = true ∧
    (Iteration.mk true 0 StoreBehavior.noKey 1).now < 0 + 2 :=
  (worker_checks_stop_condition 0 0 2 5 ⟨[], ⟨0, 0, 0⟩, 0⟩
      [⟨true, 0, StoreBehavior.noKey, 1⟩, ⟨false, 1, StoreBehavior.noKey, 2⟩]).2.2.1
    ⟨true, 0, StoreBehavior.noKey, 1⟩ (by
      have h1 : keepGoing 0 2 (⟨true, 0, StoreBehavior.noKey, 1⟩ : Iteration) = true := by
        simp only [keepGoing, Bool.true_and, decide_eq_true_eq]
        norm_num
      simp [List.takeWhile_cons, h1])

/-- C6: when the store has no keys, every attempt returns a normal
`success=False` outcome (an ordinary return from the attempt body, not an
error), the worker still counts every attempt in `total_operations`, no
success is ever recorded, and both the reporter's and the final report's
success rate evaluate to 0. -/
theorem empty_store_all_attempts_fail (wid : ℕ) (s d : ℚ) (C : ℕ)
    (sched : List Iteration)
    (hb : ∀ it ∈ sched, it.behavior = StoreBehavior.noKey) :
    (∀ a b : ℚ, attemptBody wid a b StoreBehavior.noKey =
        Except.ok ⟨false, b - a, a, wid⟩) ∧
    (∀ r ∈ (workerLoop wid s d C ⟨[], ⟨0, 0, 0⟩, 0⟩ sched).results,
        r.success = false) ∧
    ((workerLoop wid s d C ⟨[], ⟨0, 0, 0⟩, 0⟩ sched).counters.total_operations =
        (sched.takeWhile (keepGoing s d)).length) ∧
    ((workerLoop wid s d C
        ⟨[], ⟨0, 0, 0⟩, 0⟩ sched).counters.successful_operations = 0) ∧
    (reporterSuccessRate
        (workerLoop wid s d C
          ⟨[], ⟨0, 0, 0⟩, 0⟩ sched).counters.successful_operations
        (workerLoop wid s d C
          ⟨[], ⟨0, 0, 0⟩, 0⟩ sched).counters.total_operations = 0) ∧
    (finalSuccessRate
        (workerLoop wid s d C
          ⟨[], ⟨0, 0, 0⟩, 0⟩ sched).counters.successful_operations
        (workerLoop wid s d C
          ⟨[], ⟨0, 0, 0⟩, 0⟩ sched).counters.total_operations = 0) := by
  have hfail : ∀ r ∈ attemptResults wid s d sched, r.success = false := by
    intro r hr
    rcases List.mem_map.mp hr with ⟨it, hit, rfl⟩
    have hsub : it ∈ sched := (List.takeWhile_sublist _).subset hit
    rw [hb it hsub]
    rfl
  have hspec := workerLoop_spec wid s d C sched ⟨[], ⟨0, 0, 0⟩, 0⟩
  have hzero : (workerLoop wid s d C
      ⟨[], ⟨0, 0, 0⟩, 0⟩ sched).counters.successful_operations = 0 := by
    rw [hspec]
    exact applyResults_succ_of_failed _ hfail ⟨0, 0, 0⟩
  have htot : (workerLoop wid s d C
      ⟨[], ⟨0, 0, 0⟩, 0⟩ sched).counters.total_operations =
      (sched.takeWhile (keepGoing s d)).length := by
    rw [hspec]
    have h := applyResults_total (attemptResults wid s d sched) ⟨0, 0, 0⟩
    dsimp only at h
    simpa [attemptResults] using h
  refine ⟨fun a b => rfl, ?_, htot, hzero, ?_, ?_⟩
  · intro r hr
    rw [hspec] at hr
    dsimp only at hr
    rw [appendAll_nil_start] at hr
    exact hfail r (keepLast_subset C _ hr)
  · rw [hzero]
    simp [reporterSuccessRate]
  · rw [hzero]
    simp [finalSuccessRate]

/-- Witness for C6: a one-iteration schedule against an empty store. -/
theorem empty_store_all_attempts_fail_witness :
    (workerLoop 0 0 2 5 ⟨[], ⟨0, 0, 0⟩, 0⟩
        [⟨true, 0, StoreBehavior.noKey, 1⟩]).counters.successful_operations = 0 :=
  (empty_store_all_attempts_fail 0 0 2 5 [⟨true, 0, StoreBehavior.noKey, 1⟩]
    (by intro it hit; simp at hit; rw [hit])).2.2.2.1

/-- C10: every attempt outcome — failed or successful — carries the elapsed
duration measured from the attempt's start and the attempt's start timestamp;
the worker appends each outcome to the buffer unconditionally; and the latency
datasets of both the final report and the reporter keep one entry per buffered
outcome irrespective of its success flag, so the latency statistics are not
restricted to successful operations. -/
theorem every_outcome_recorded (wid : ℕ) (s e : ℚ) :
    (∀ b : StoreBehavior, (perform_operation wid s e b).duration = e - s ∧
        (perform_operation wid s e b).timestamp = s) ∧
    (∀ (d : ℚ) (C : ℕ) (st : WorkerState) (it : Iteration)
        (rest : List Iteration), keepGoing s d it = true →
        workerLoop wid s d C st (it :: rest) =
          workerLoop wid s d C
            { results := bufAppend C st.results
                (perform_operation wid it.now it.endTime it.behavior)
              counters := recordResult st.counters
                (perform_operation wid it.now it.endTime it.behavior)
              operations := st.operations + 1 } rest) ∧
    (∀ rs : List TestResult,
        (finalLatencies rs).length = rs.length ∧
        ∀ r ∈ rs, r.duration * 1000 ∈ finalLatencies rs) ∧
    (∀ (rs : List TestResult) (r : TestResult), r ∈ keepLast 100 rs →
        r.duration * 1000 ∈ recentLatencies rs) := by
  refine ⟨?_, ?_, ?_, ?_⟩
  · intro b
    cases b <;> simp [perform_operation, attemptBody]
  · intro d C st it rest h
    exact workerLoop_cons_true wid s d C st it rest h
  · intro rs
    refine ⟨by simp [finalLatencies], ?_⟩
    intro r hr
    simp only [finalLatencies]
    exact List.mem_map_of_mem _ hr
  · intro rs r hr
    simp only [recentLatencies]
    exact List.mem_map_of_mem _ hr

/-- Witness for C10: one iteration under a passing check. -/
theorem every_outcome_recorded_witness :
    workerLoop 1 0 2 5 ⟨[], ⟨0, 0, 0⟩, 0⟩ [⟨true, 0, StoreBehavior.noKey, 1⟩] =
      workerLoop 1 0 2 5
        { results := bufAppend 5 [] (perform_operation 1 0 1 StoreBehavior.noKey)
          counters := recordResult ⟨0, 0, 0⟩ (perform_operation 1 0 1 StoreBehavior.noKey)
          operations := 0 + 1 } [] :=
  (every_outcome_recorded 1 0 2).2.1 2 5 ⟨[], ⟨0, 0, 0⟩, 0⟩
    ⟨true, 0, StoreBehavior.noKey, 1⟩ [] (by
      simp only [keepGoing, Bool.true_and, decide_eq_true_eq]
      norm_num)

theorem notMem_append_singleton_get {α : Type} (L : List α) (x : α)
    (hx : x ∉ L) :
    ∀ (i : ℕ) (h : i < (L ++ [x]).length),
      (L ++ [x]).get ⟨i, h⟩ = x → i = L.length := by
  induction L with
  | nil =>
      intro i h hg
      simp only [List.nil_append, List.length_cons, List.length_nil] at h
      simpa using Nat.lt_one_iff.mp h
  | cons a L ih =>
      intro i h hg
      cases i with
      | zero =>
          exfalso
          apply hx
          simp only [List.cons_append, List.get] at hg
          rw [hg]
          exact List.mem_cons_self x L
      | succ n =>
          have hn : n < (L ++ [x]).length := by
            simp only [List.cons_append, List.length_cons] at h
            omega
          have hgn : (L ++ [x]).get ⟨n, hn⟩ = x := by
            simpa only [List.cons_append, List.get] using hg
          have := ih (fun hm => hx (List.mem_cons_of_mem a hm)) n hn hgn
          simp [this]

/-- C8: the reporter's emissions are exactly the longest prefix of ticks on
which the running flag was observed true both at the loop check and after the
sleep — a tick that wakes to a false flag is suppressed and the loop ends —
and in the orchestrator's output trace (task gather, then final report) the
final report is the last event, so no metrics line follows it. -/
theorem reporter_suppressed_after_stop (ticks : List Tick) :
    (reporterLoop ticks =
        ticks.takeWhile (fun t => t.preRunning && t.postRunning)) ∧
    (∀ t ∈ reporterLoop ticks, t.preRunning = true ∧ t.postRunning = true) ∧
    (∀ (i : ℕ) (h : i < (run_test_trace ticks).length),
        (run_test_trace ticks).get ⟨i, h⟩ = RunEvent.finalReport →
        i = (run_test_trace ticks).length - 1) := by
  have h1 : reporterLoop ticks =
      ticks.takeWhile (fun t => t.preRunning && t.postRunning) := by
    induction ticks with
    | nil => rfl
    | cons t rest ih =>
        cases hpre : t.preRunning <;> cases hpost : t.postRunning <;>
          simp [reporterLoop, List.takeWhile_cons, hpre, hpost, ih]
  refine ⟨h1, ?_, ?_⟩
  · intro t ht
    rw [h1] at ht
    have h := List.mem_takeWhile_imp ht
    simp only [Bool.and_eq_true] at h
    exact h
  · intro i h hfr
    have hx : RunEvent.finalReport ∉ (reporterLoop ticks).map RunEvent.metrics := by
      intro hmem
      rcases List.mem_map.mp hmem with ⟨t, _, ht⟩
      exact RunEvent.noConfusion ht
    have := notMem_append_singleton_get _ _ hx i h hfr
    simp only [run_test_trace, List.length_append, List.length_map,
      List.length_singleton] at this ⊢
    omega

/-- Witness for C8: with a single fully-running tick, the final report sits at
the last trace position. -/
theorem reporter_suppressed_after_stop_witness :
    (1 : ℕ) = (run_test_trace [⟨true, true⟩]).length - 1 :=
  (reporter_suppressed_after_stop [⟨true, true⟩]).2.2 1 (by decide) rfl

/-- C9: the throughput and success-rate divisions of both the periodic
reporter and the final report are guarded: non-positive elapsed time yields
throughput 0, zero total operations yields success rate 0, and the quotient
formulas are only used under the positive guard. -/
theorem metrics_division_guards (total succ : ℕ) (elapsed : ℚ) :
    (elapsed ≤ 0 → reporterThroughput total elapsed = 0 ∧
        finalThroughput total elapsed = 0) ∧
    (0 < elapsed → reporterThroughput total elapsed = (total : ℚ) / elapsed ∧
        finalThroughput total elapsed = (total : ℚ) / elapsed) ∧
    (total = 0 → reporterSuccessRate succ total = 0 ∧
        finalSuccessRate succ total = 0) ∧
    (0 < total → reporterSuccessRate succ total = (succ : ℚ) / (total : ℚ) * 100 ∧
        finalSuccessRate succ total = (succ : ℚ) / (total : ℚ) * 100) := by
  refine ⟨?_, ?_, ?_, ?_⟩
  · intro h
    constructor <;> simp [reporterThroughput, finalThroughput, not_lt.mpr h]
  · intro h
    constructor <;> simp [reporterThroughput, finalThroughput, h]
  · intro h
    subst h
    constructor <;> simp [reporterSuccessRate, finalSuccessRate]
  · intro h
    constructor <;> simp [reporterSuccessRate, finalSuccessRate, h]

/-- Witness for C9 at elapsed time 0 and zero total operations. -/
theorem metrics_division_guards_witness :
    reporterThroughput 7 0 = 0 ∧ finalThroughput 7 0 = 0 :=
  (metrics_division_guards 7 4 0).1 le_rfl

/-! ## Concrete percentile computations -/

theorem recent_sample : recentLatencies sampleResults = [10, 20, 30, 40, 50] := by
  simp [recentLatencies, sampleResults, keepLast, mkSample]
  norm_num

theorem sorted_sample : pySorted [10, 20, 30, 40, 50] = [10, 20, 30, 40, 50] := by
  norm_num [pySorted, insertSorted]

theorem p95_sample : (pyQuantiles [10, 20, 30, 40, 50] 20).getD 18 0 = 57 := by
  simp only [pyQuantiles, sorted_sample]
  norm_num [List.getD]

theorem sampleP95_eq : reporterP95Latency sampleResults = 57 := by
  have hne : sampleResults.isEmpty = false := by simp [sampleResults]
  simp only [reporterP95Latency, hne, Bool.false_eq_true, if_false, recent_sample]
  rw [if_pos (by norm_num)]
  exact p95_sample

theorem sampleAvg_eq : reporterAvgLatency sampleResults = 30 := by
  have hne : sampleResults.isEmpty = false := by simp [sampleResults]
  simp only [reporterAvgLatency, hne, Bool.false_eq_true, if_false, recent_sample]
  norm_num [pyMean]

theorem reporter_single (r : TestResult) :
    reporterP95Latency [r] = reporterAvgLatency [r] ∧
    reporterAvgLatency [r] = r.duration * 1000 := by
  have h : recentLatencies [r] = [r.duration * 1000] := by
    simp [recentLatencies, keepLast]
  refine ⟨?_, ?_⟩
  · simp [reporterP95Latency, h]
  · simp [reporterAvgLatency, h, pyMean]

theorem reporter_empty :
    reporterP95Latency [] = 0 ∧ reporterAvgLatency [] = 0 := by
  constructor <;> simp [reporterP95Latency, reporterAvgLatency]

/-- C1 (counterexample): on the latency snapshot [10,20,30,40,50] ms the
reporter's 95th-percentile computation returns 57 ms, not the nearest-rank
value 50 ms the claim asserts (the mean is 30 ms as claimed). -/
theorem reporter_p95_not_nearest_rank :
    reporterP95Latency sampleResults ≠ 50 ∧
    reporterP95Latency sampleResults = 57 ∧
    reporterAvgLatency sampleResults = 30 := by
  refine ⟨?_, sampleP95_eq, sampleAvg_eq⟩
  rw [sampleP95_eq]
  norm_num

/-- C1 (amended): the percentile computation uses Python's
`statistics.quantiles` (n=20, default exclusive interpolation) at index 18,
not the nearest-rank method: for the latency list [10,20,30,40,50] ms the 95th
percentile equals 57 ms (interpolating past the maximum), the mean equals
30 ms; and when the snapshot has at most one entry the 95th percentile equals
the mean — the single value, or 0 for an empty buffer. -/
theorem reporter_p95_exclusive_quantiles :
    reporterP95Latency sampleResults = 57 ∧
    reporterAvgLatency sampleResults = 30 ∧
    (∀ r : TestResult, reporterP95Latency [r] = reporterAvgLatency [r] ∧
        reporterAvgLatency [r] = r.duration * 1000) ∧
    (reporterP95Latency [] = 0 ∧ reporterAvgLatency [] = 0) :=
  ⟨sampleP95_eq, sampleAvg_eq, reporter_single, reporter_empty⟩

/-! ## Minimum and maximum over a latency list -/

theorem foldl_min_mem (xs : List ℚ) : ∀ x : ℚ, xs.foldl min x ∈ x :: xs := by
  induction xs with
  | nil => intro x; simp
  | cons y ys ih =>
      intro x
      have h := ih (min x y)
      simp only [List.foldl_cons]
      rcases List.mem_cons.mp h with h1 | h1
      · rcases min_choice x y with hc | hc
        · rw [h1, hc]; exact List.mem_cons_self x (y :: ys)
        · rw [h1, hc]; exact List.mem_cons_of_mem x (List.mem_cons_self y ys)
      · exact List.mem_cons_of_mem x (List.mem_cons_of_mem y h1)

theorem foldl_min_le (xs : List ℚ) :
    ∀ x : ℚ, ∀ y ∈ x :: xs, xs.foldl min x ≤ y := by
  induction xs with
  | nil =>
      intro x y hy
      simp only [List.mem_singleton] at hy
      simp [hy]
  | cons z zs ih =>
      intro x y hy
      simp only [List.foldl_cons]
      have hhead := ih (min x z) (min x z) (List.mem_cons_self _ _)
      rcases List.mem_cons.mp hy with h1 | hy1
      · rw [h1]; exact le_trans hhead (min_le_left x z)
      · rcases List.mem_cons.mp hy1 with h2 | hy2
        · rw [h2]; exact le_trans hhead (min_le_right x z)
        · exact ih (min x z) y (List.mem_cons_of_mem _ hy2)

theorem foldl_max_mem (xs : List ℚ) : ∀ x : ℚ, xs.foldl max x ∈ x :: xs := by
  induction xs with
  | nil => intro x; simp
  | cons y ys ih =>
      intro x
      have h := ih (max x y)
      simp only [List.foldl_cons]
      rcases List.mem_cons.mp h with h1 | h1
      · rcases max_choice x y with hc | hc
        · rw [h1, hc]; exact List.mem_cons_self x (y :: ys)
        · rw [h1, hc]; exact List.mem_cons_of_mem x (List.mem_cons_self y ys)
      · exact List.mem_cons_of_mem x (List.mem_cons_of_mem y h1)

theorem foldl_max_ge (xs : List ℚ) :
    ∀ x : ℚ, ∀ y ∈ x :: xs, y ≤ xs.foldl max x := by
  induction xs with
  | nil =>
      intro x y hy
      simp only [List.mem_singleton] at hy
      simp [hy]
  | cons z zs ih =>
      intro x y hy
      simp only [List.foldl_cons]
      have hhead := ih (max x z) (max x z) (List.mem_cons_self _ _)
      rcases List.mem_cons.mp hy with h1 | hy1
      · rw [h1]; exact le_trans (le_max_left x z) hhead
      · rcases List.mem_cons.mp hy1 with h2 | hy2
        · rw [h2]; exact le_trans (le_max_right x z) hhead
        · exact ih (max x z) y (List.mem_cons_of_mem _ hy2)

theorem listMin_spec (l : List ℚ) (h : l ≠ []) :
    listMin l ∈ l ∧ ∀ y ∈ l, listMin l ≤ y := by
  cases l with
  | nil => exact absurd rfl h
  | cons x xs =>
      exact ⟨foldl_min_mem xs x, fun y hy => foldl_min_le xs x y hy⟩

theorem listMax_spec (l : List ℚ) (h : l ≠ []) :
    listMax l ∈ l ∧ ∀ y ∈ l, y ≤ listMax l := by
  cases l with
  | nil => exact absurd rfl h
  | cons x xs =>
      exact ⟨foldl_max_mem xs x, fun y hy => foldl_max_ge xs x y hy⟩

/-- C5: the final report's latency statistics are computed over the entire
result buffer: the dataset has one latency per buffered outcome, the average
is the sum over all of them divided by the buffer length, min and max are
attained on and bound the full dataset, and the 95th/99th percentiles are
taken over the full dataset — whereas the periodic reporter's snapshot holds
only the most recent min(length, 100) entries, coinciding with the full
dataset only while the buffer has at most 100 entries. -/
theorem final_report_full_dataset (rs : List TestResult) (h : rs ≠ []) :
    (finalLatencies rs).length = rs.length ∧
    finalAvgLatency rs = (finalLatencies rs).sum / (rs.length : ℚ) ∧
    (finalMinLatency rs ∈ finalLatencies rs ∧
      ∀ x ∈ finalLatencies rs, finalMinLatency rs ≤ x) ∧
    (finalMaxLatency rs ∈ finalLatencies rs ∧
      ∀ x ∈ finalLatencies rs, x ≤ finalMaxLatency rs) ∧
    (1 < (finalLatencies rs).length →
      finalP95Latency rs = (pyQuantiles (finalLatencies rs) 20).getD 18 0 ∧
      finalP99Latency rs = (pyQuantiles (finalLatencies rs) 100).getD 98 0) ∧
    (recentLatencies rs).length = min rs.length 100 ∧
    (rs.length ≤ 100 → recentLatencies rs = finalLatencies rs) := by
  have hne : rs.isEmpty = false := by
    cases rs with
    | nil => exact absurd rfl h
    | cons a as => rfl
  have hlat : finalLatencies rs ≠ [] := by
    simp [finalLatencies, h]
  refine ⟨by simp [finalLatencies], ?_, ?_, ?_, ?_, ?_, ?_⟩
  · simp [finalAvgLatency, hne, pyMean, finalLatencies]
  · have hmin := listMin_spec (finalLatencies rs) hlat
    simpa [finalMinLatency, hne] using hmin
  · have hmax := listMax_spec (finalLatencies rs) hlat
    simpa [finalMaxLatency, hne] using hmax
  · intro hlen
    constructor
    · simp [finalP95Latency, hne, hlen]
    · simp [finalP99Latency, hne, hlen]
  · simp [recentLatencies, keepLast_length]
  · intro hle
    simp [recentLatencies, finalLatencies, keepLast_of_le 100 rs hle]

/-- Witness for C5 at the five-entry sample buffer. -/
theorem final_report_full_dataset_witness :
    (finalLatencies sampleResults).length = sampleResults.length :=
  (final_report_full_dataset sampleResults (by simp [sampleResults])).1
